import Mathlib

/-!
# Verification of the survey-app core pipeline (src/assets/app.js)

Shallow embedding of the client-side survey tool: record store read
(`getSurveyData`), form validation (`initFormPage`'s submit handler),
dashboard aggregation (`renderDashboard`), and CSV projection
(`convertToCsv`).

Modelling conventions:
* JavaScript strings are modelled as `List Char` (sequences of code
  points); for the BMP text this application manipulates, code-point
  length and UTF-16 length coincide.
* A form/JSON field that may be `null`/absent is an `Option`.
* JavaScript numbers are modelled by exact rationals, with `Option ℚ`
  where `none` stands for NaN; IEEE-754 rounding of intermediate
  arithmetic is out of scope.
* Platform primitives without an algorithmic definition in the source
  (`JSON.parse`, `Number(string)`, `new Date(string).getTime()`,
  number-to-string conversion) are parameters of the embedded
  functions, so every theorem is quantified over their behaviour.
* `Array.prototype.sort` is modelled as a stable insertion sort; the
  ECMAScript specification pins the result down exactly when the
  comparator is consistent, which is the regime of the theorems below.
-/

namespace SurveyApp

/-- A JavaScript string, as a list of characters. -/
abbrev JStr := List Char

/-- The characters removed by JavaScript `String.prototype.trim`
(WhiteSpace and LineTerminator code points). -/
def isJsSpace (c : Char) : Bool :=
  c.toNat ∈ [9, 10, 11, 12, 13, 32, 160, 0x1680,
    0x2000, 0x2001, 0x2002, 0x2003, 0x2004, 0x2005, 0x2006, 0x2007,
    0x2008, 0x2009, 0x200A, 0x2028, 0x2029, 0x202F, 0x205F, 0x3000, 0xFEFF]

/-- `String.prototype.trim`: drop leading and trailing whitespace. -/
def trimJs (l : JStr) : JStr :=
  ((l.dropWhile isJsSpace).reverse.dropWhile isJsSpace).reverse

/-- The character class `[\n\r]` of the sanitizing regex. -/
def isNlCr (c : Char) : Bool := c = '\n' || c = '\r'

/-- Helper for `collapseNl`: the flag records whether the previous
character belonged to a `[\n\r]` run (whose space was already
emitted). -/
def collapseNlAux : Bool → JStr → JStr
  | _, [] => []
  | inRun, c :: cs =>
    if isNlCr c then
      (if inRun then [] else [' ']) ++ collapseNlAux true cs
    else c :: collapseNlAux false cs

/-- `text.replace(/[\n\r]+/g, ' ')`: each maximal run of `\n`/`\r`
characters becomes a single space. -/
def collapseNl (l : JStr) : JStr := collapseNlAux false l

/-- `sanitizeText(text)` (app.js:53-55):
`(text || '').replace(/[\n\r]+/g, ' ').trim()`.
The argument is `Option`al because callers pass possibly-`null` values. -/
def sanitizeText (o : Option JStr) : JStr :=
  trimJs (collapseNl (o.getD []))

/-- A primitive JavaScript value, as needed for the untrusted
`priority` field of a stored entry (numbers restricted to the exact
rationals a JSON literal can denote). -/
inductive JsPrim where
  | undef : JsPrim
  | null : JsPrim
  | num : ℚ → JsPrim
  | str : JStr → JsPrim
  | bool : Bool → JsPrim
deriving DecidableEq

/-- JavaScript truthiness test on a `JsPrim`. -/
def JsPrim.truthy : JsPrim → Bool
  | .undef => false
  | .null => false
  | .num q => q != 0
  | .str s => !s.isEmpty
  | .bool b => b

/-- A survey entry as read back from storage (fields untrusted: any of
them may be absent), and as constructed by the validator. -/
structure Entry where
  timestamp : Option JStr
  department : Option JStr
  role : Option JStr
  priority : JsPrim
  issue : Option JStr
  contact : Bool
deriving DecidableEq

/-! ## Record store: `getSurveyData` (app.js:8-20) -/

/-- Result of `JSON.parse` when it does not throw: either an array of
items or some non-array JSON value. -/
inductive JsonVal (α : Type) where
  | arr : List α → JsonVal α
  | nonArray : JsonVal α
deriving DecidableEq

/-- `getSurveyData()` (app.js:8-20). `jsonParse` models `JSON.parse`
(`none` = the call throws, caught by the surrounding `try`); `stored`
models `localStorage.getItem(STORAGE_KEY)` (`none` = key absent). The
`!raw` guard is also taken by the empty string. -/
def getSurveyData {α : Type} (jsonParse : JStr → Option (JsonVal α))
    (stored : Option JStr) : List α :=
  match stored with
  | none => []
  | some raw =>
    if raw.isEmpty then []
    else
      match jsonParse raw with
      | none => []
      | some (.arr l) => l
      | some .nonArray => []

/-! ## Validator: the submit handler of `initFormPage` (app.js:289-333) -/

/-- The raw form fields, as returned by `FormData.get` (`none` = the
field is absent from the form data). -/
structure RawForm where
  department : Option JStr
  role : Option JStr
  issue : Option JStr
  priority : Option JStr
  contact : Option JStr
deriving DecidableEq

/-- The four validation error messages, in the order the handler can
push them. -/
inductive FormError where
  | deptRequired : FormError
  | issueRequired : FormError
  | issueTooLong : FormError
  | priorityInvalid : FormError
deriving DecidableEq

/-- Falsiness of a `FormData.get` result (`null` or the empty string). -/
def optStrFalsy (o : Option JStr) : Bool :=
  match o with
  | none => true
  | some s => s.isEmpty

/-- The error list collected by the submit handler (app.js:298-313).
`numParse` models the composite `Number(value)` conversion together
with the `Number.isInteger` test: `some n` iff `Number(value)` is the
integer `n`, `none` iff it is not an integer (NaN included). -/
def formErrors (numParse : Option JStr → Option Int) (raw : RawForm) :
    List FormError :=
  (if optStrFalsy raw.department then [FormError.deptRequired] else []) ++
  (let issue := sanitizeText raw.issue
   if issue.isEmpty then [FormError.issueRequired]
   else if issue.length > 200 then [FormError.issueTooLong] else []) ++
  (match numParse raw.priority with
   | none => [FormError.priorityInvalid]
   | some p =>
     if p < 1 ∨ p > 5 then [FormError.priorityInvalid] else [])

/-- The submit handler (app.js:289-333): on any error, the errors are
shown and nothing is stored; otherwise the entry is built from the
sanitized fields, with `timestamp` the current instant (`now`). -/
def validate (numParse : Option JStr → Option Int) (now : JStr)
    (raw : RawForm) : Except (List FormError) Entry :=
  let errors := formErrors numParse raw
  if errors.isEmpty then
    match numParse raw.priority with
    | some p =>
      Except.ok
        { timestamp := some now
          department := raw.department
          role := some (sanitizeText raw.role)
          priority := .num (p : ℚ)
          issue := some (sanitizeText raw.issue)
          contact := raw.contact == some ['o', 'n'] }
    | none => Except.error errors
  else Except.error errors

/-! ## Aggregator: `renderDashboard` (app.js:151-212) -/

/-- `DEPARTMENTS` (app.js:5). -/
def DEPARTMENTS : List JStr :=
  ["営業".toList, "事務".toList, "システム".toList, "その他".toList]

/-- The catch-all bucket `'その他'` used at app.js:177. -/
def OTHER : JStr := "その他".toList

/-- `counts.hasOwnProperty(k)` on the counts object, whose own keys are
the keys of the association list. -/
def hasKey (m : List (JStr × Nat)) (k : JStr) : Bool :=
  m.any (fun p => p.1 == k)

/-- `counts[k] += 1`: increment the entry for key `k`. -/
def bump (m : List (JStr × Nat)) (k : JStr) : List (JStr × Nat) :=
  m.map (fun p => if p.1 == k then (p.1, p.2 + 1) else p)

/-- The bucket an entry is counted under (app.js:177): its own
department when that is an own key of `counts`, else `'その他'`.
An absent department never matches `hasOwnProperty`. -/
def stepCount (m : List (JStr × Nat)) (e : Entry) : List (JStr × Nat) :=
  bump m
    (match e.department with
     | some d => if hasKey m d then d else OTHER
     | none => OTHER)

/-- The department counts of `renderDashboard` (app.js:171-179):
initialised to zero for each of `DEPARTMENTS`, then incremented once
per entry. -/
def departmentCounts (data : List Entry) : List (JStr × Nat) :=
  data.foldl stepCount (DEPARTMENTS.map (fun d => (d, 0)))

/-- Read a bucket's value (first matching key). -/
def lookupCount : List (JStr × Nat) → JStr → Nat
  | [], _ => 0
  | p :: rest, k => if p.1 == k then p.2 else lookupCount rest k

/-- The bucket an entry contributes to, phrased against the fixed
category list (equal to `stepCount`'s choice while the keys are
exactly `DEPARTMENTS`). -/
def bucketOf (e : Entry) : JStr :=
  match e.department with
  | some d => if DEPARTMENTS.contains d then d else OTHER
  | none => OTHER

/-! ### Average priority (app.js:161-169) -/

/-- NaN-propagating addition of JavaScript numbers. -/
def jsAdd (a b : Option ℚ) : Option ℚ :=
  match a, b with
  | some x, some y => some (x + y)
  | _, _ => none

/-- `Number(entry.priority || 0)` (app.js:165). A falsy priority is
replaced by `0` before conversion; `strNum` models `Number` on a
non-empty string (`none` = NaN). `Number(true) = 1`; the `undef` and
`null` arms are unreachable (both are falsy). -/
def prioNum (strNum : JStr → Option ℚ) (p : JsPrim) : Option ℚ :=
  if p.truthy then
    match p with
    | .num q => some q
    | .str s => strNum s
    | .bool _ => some 1
    | .undef => some 0
    | .null => some 0
  else some 0

/-- `data.reduce((sum, entry) => sum + Number(entry.priority || 0), 0)`
(app.js:165). -/
def totalPriority (strNum : JStr → Option ℚ) (data : List Entry) :
    Option ℚ :=
  data.foldl (fun acc e => jsAdd acc (prioNum strNum e.priority)) (some 0)

/-- `Number.prototype.toFixed(1)` on an exact rational: the integer
`n` with `n / 10` closest to the value, ties to the larger `n`. -/
def round1 (q : ℚ) : ℚ := (⌊10 * q + 1 / 2⌋ : ℚ) / 10

/-- The displayed average priority (app.js:161-168) as an exact value:
`some v` means the text `v.toFixed`-style with one decimal, `none`
means the text `"NaN"`. Empty data shows `'0.0'`. -/
def averageDisplayed (strNum : JStr → Option ℚ) (data : List Entry) :
    Option ℚ :=
  if data.length = 0 then some 0
  else (totalPriority strNum data).map (fun t => round1 (t / data.length))

/-- The spec's account of the same value ("missing or invalid priority
contributing 0"): every entry contributes the numeric coercion of its
priority when that is a number, and `0` otherwise. -/
def specAverageDisplayed (strNum : JStr → Option ℚ) (data : List Entry) :
    Option ℚ :=
  if data.length = 0 then some 0
  else
    some (round1
      ((data.map (fun e => (prioNum strNum e.priority).getD 0)).sum /
        data.length))

/-! ### Recent entries (app.js:190-193) -/

/-- Stable insertion of `x` into `l`: `x` goes in front of the first
element `y` with `le x y`. -/
def jsOrderedInsert (le : α → α → Bool) (x : α) : List α → List α
  | [] => [x]
  | y :: ys => if le x y then x :: y :: ys else y :: jsOrderedInsert le x ys

/-- Stable sort: the model of `Array.prototype.sort` with comparator
`c`, where `le a b` means `c(a, b) ≤ 0` ("`a` may stay before `b`"). -/
def jsSort (le : α → α → Bool) : List α → List α
  | [] => []
  | x :: xs => jsOrderedInsert le x (jsSort le xs)

/-- The comparator `(a, b) => new Date(b.timestamp) - new Date(a.timestamp)`
(app.js:192), reduced to the "keep `a` before `b`" relation used by a
stable sort. `parse` models `new Date(s).getTime()` (`none` = Invalid
Date, i.e. NaN); per ES `SortCompare`, a NaN comparator value is
treated as `+0`, so either order is allowed — hence `true`. -/
def jsLe (parse : Option JStr → Option ℚ) (a b : Entry) : Bool :=
  match parse b.timestamp, parse a.timestamp with
  | some tb, some ta => decide (tb - ta ≤ 0)
  | _, _ => true

/-- `data.slice().sort(...).slice(0, 5)` (app.js:190-193). -/
def recentEntries (parse : Option JStr → Option ℚ) (data : List Entry) :
    List Entry :=
  (jsSort (jsLe parse) data).take 5

/-- Lexicographic (code-point) strict order on JavaScript strings. -/
def strLt : JStr → JStr → Bool
  | [], [] => false
  | [], _ :: _ => true
  | _ :: _, [] => false
  | c :: cs, d :: ds => if c.toNat = d.toNat then strLt cs ds
                        else decide (c.toNat < d.toNat)

/-- The ordering the spec claims for `recentEntries`: descending by
parsed timestamp, and "entries with unparsable timestamps sort using
the literal string comparison fallback of the date parser", i.e.
descending by string comparison of the raw timestamps when either one
fails to parse. -/
def specLe (parse : Option JStr → Option ℚ) (a b : Entry) : Bool :=
  match parse b.timestamp, parse a.timestamp with
  | some tb, some ta => decide (tb ≤ ta)
  | _, _ => !strLt (a.timestamp.getD []) (b.timestamp.getD [])

/-- The recent subset as the spec describes it. -/
def specRecentEntries (parse : Option JStr → Option ℚ)
    (data : List Entry) : List Entry :=
  (jsSort (specLe parse) data).take 5

/-! ### Recent-entry issue preview (app.js:202-204) -/

/-- `sanitizeText(entry.issue).slice(0, 20)`. -/
def issueSnippet (e : Entry) : JStr := (sanitizeText e.issue).take 20

/-- The condition `entry.issue && entry.issue.length > 20` guarding
the ellipsis: it tests the RAW issue's truthiness and length. -/
def ellipsisShown (e : Entry) : Bool :=
  match e.issue with
  | none => false
  | some s => !s.isEmpty && s.length > 20

/-- The full displayed preview text
`snippet + (entry.issue && entry.issue.length > 20 ? '…' : '')`. -/
def displayedIssue (e : Entry) : JStr :=
  issueSnippet e ++ (if ellipsisShown e then ['…'] else [])

/-! ## CSV projector: `convertToCsv` (app.js:214-232) -/

/-- The header cells (app.js:215). -/
def csvHeader : List JStr :=
  ["timestamp".toList, "department".toList, "role".toList,
   "priority".toList, "issue".toList, "contact".toList]

/-- Double every double quote (`text.replace(/"/g, '""')`). -/
def dupQuotes (s : JStr) : JStr :=
  s.flatMap (fun c => if c = '"' then ['"', '"'] else [c])

/-- `escapeCell` (app.js:216-220) applied to an already-stringified
cell: wrap in double quotes, doubling embedded double quotes. -/
def escapeCell (s : JStr) : JStr := '"' :: dupQuotes s ++ ['"']

/-- `String(entry.priority)` inside `escapeCell`: `value == null`
(loose) yields the empty string; `numToStr` models number-to-string
conversion. -/
def priorityCell (numToStr : ℚ → JStr) (p : JsPrim) : JStr :=
  match p with
  | .undef => []
  | .null => []
  | .num q => numToStr q
  | .str s => s
  | .bool b => if b then "true".toList else "false".toList

/-- The six cell strings of an entry's CSV row, in column order
(app.js:222-229). -/
def entryCells (numToStr : ℚ → JStr) (e : Entry) : List JStr :=
  [e.timestamp.getD [], e.department.getD [], e.role.getD [],
   priorityCell numToStr e.priority, sanitizeText e.issue,
   if e.contact then "はい".toList else "いいえ".toList]

/-- `Array.prototype.join(sep)`. -/
def joinSep (sep : JStr) : List JStr → JStr
  | [] => []
  | [x] => x
  | x :: xs => x ++ sep ++ joinSep sep xs

/-- A CSV row: the escaped cells joined by commas. -/
def csvRow (cells : List JStr) : JStr :=
  joinSep [','] (cells.map escapeCell)

/-- `convertToCsv(data)` (app.js:214-232). -/
def convertToCsv (numToStr : ℚ → JStr) (data : List Entry) : JStr :=
  joinSep ['\n']
    (csvRow csvHeader :: data.map (fun e => csvRow (entryCells numToStr e)))

/-- Read one quoted cell body after its opening quote: `""` is a
literal quote, a lone `"` closes the cell. Returns the cell content
and the remaining input (which starts with `,` or is empty in
well-formed rows). -/
def scanCell : JStr → Option (JStr × JStr)
  | [] => none
  | c :: rest =>
    if c = '"' then
      match rest with
      | [] => some ([], [])
      | d :: rest2 =>
        if d = '"' then (scanCell rest2).map (fun p => ('"' :: p.1, p.2))
        else some ([], d :: rest2)
    else (scanCell rest).map (fun p => (c :: p.1, p.2))

/-- `scanCell` consumes at least one character. -/
theorem scanCell_length (l s r : JStr) (h : scanCell l = some (s, r)) :
    r.length < l.length := by
  match l with
  | [] => simp [scanCell] at h
  | c :: rest =>
    unfold scanCell at h
    split at h
    · split at h
      · cases h
        simp
      · split at h
        · obtain ⟨p, hp, hfp⟩ := Option.map_eq_some'.mp h
          have hlt := scanCell_length _ p.1 p.2 hp
          injection hfp with h1 h2
          subst h2
          simp only [List.length_cons]
          omega
        · cases h
          simp
    · obtain ⟨p, hp, hfp⟩ := Option.map_eq_some'.mp h
      have hlt := scanCell_length _ p.1 p.2 hp
      injection hfp with h1 h2
      subst h2
      simp only [List.length_cons]
      omega
termination_by l.length
decreasing_by
  all_goals simp_all only [List.length_cons]
  all_goals omega

/-- Parse a full row of quoted, comma-separated cells. -/
def parseRow (l : JStr) : Option (List JStr) :=
  match l with
  | '"' :: rest =>
    match h : scanCell rest with
    | some (s, []) => some [s]
    | some (s, ',' :: rest2) => (parseRow rest2).map (fun cs => s :: cs)
    | _ => none
  | _ => none
termination_by l.length
decreasing_by
  have := scanCell_length rest s (',' :: rest2) h
  simp only [List.length_cons] at this ⊢
  omega

/-! ## Theorems -/

/-- C10: on the empty entry list the CSV projection is exactly the six
quoted header cells joined by commas — one line, no data rows, no
trailing newline (no newline character at all). -/
theorem c10_csv_empty (numToStr : ℚ → JStr) :
    convertToCsv numToStr [] =
      "\"timestamp\",\"department\",\"role\",\"priority\",\"issue\",\"contact\"".toList ∧
    '\n' ∉ convertToCsv numToStr [] := by
  have h : convertToCsv numToStr [] =
      "\"timestamp\",\"department\",\"role\",\"priority\",\"issue\",\"contact\"".toList := by
    rfl
  refine ⟨h, ?_⟩
  rw [h]
  decide

/-- C2: `getSurveyData` degrades every failure to the empty list —
absent key, stored value on which `JSON.parse` throws, or a non-array
parse result all yield `[]`, and a parsed array is returned as-is.
"Never raises" is modelled by `getSurveyData` being a total function.
The hypothesis records that `JSON.parse` throws on the empty string
(the only raw value the code's `!raw` guard also intercepts). -/
theorem c2_getSurveyData_never_raises {α : Type}
    (jsonParse : JStr → Option (JsonVal α))
    (hemp : jsonParse [] = none) :
    getSurveyData jsonParse none = [] ∧
    (∀ raw, jsonParse raw = none → getSurveyData jsonParse (some raw) = []) ∧
    (∀ raw, jsonParse raw = some JsonVal.nonArray →
      getSurveyData jsonParse (some raw) = []) ∧
    (∀ raw l, jsonParse raw = some (JsonVal.arr l) →
      getSurveyData jsonParse (some raw) = l) := by
  refine ⟨rfl, ?_, ?_, ?_⟩
  · intro raw hraw
    by_cases he : raw.isEmpty
    · simp [getSurveyData, he]
    · simp [getSurveyData, he, hraw]
  · intro raw hraw
    by_cases he : raw.isEmpty
    · simp [getSurveyData, he]
    · simp [getSurveyData, he, hraw]
  · intro raw l hraw
    by_cases he : raw.isEmpty
    · rw [List.isEmpty_iff] at he
      rw [he, hemp] at hraw
      cases hraw
    · simp [getSurveyData, he, hraw]

/-- Witness for C2: the spec's scenario — the stored value is the
string `not json`, on which `JSON.parse` throws, and `readAll`
returns `[]`. -/
theorem c2_witness :
    getSurveyData
      (fun s => if s.isEmpty then none
                else if s = "not json".toList then none
                else some (JsonVal.arr ([3] : List Nat)))
      (some "not json".toList) = [] :=
  (c2_getSurveyData_never_raises _ (by decide)).2.1 "not json".toList (by decide)

/-- C7: validation does not short-circuit — whenever the department
field is empty (absent or the empty string), the department-required
message is in the collected error list and submission fails with that
list, whatever the other fields hold. -/
theorem c7_department_error_collected
    (numParse : Option JStr → Option Int) (now : JStr) (raw : RawForm)
    (h : optStrFalsy raw.department = true) :
    FormError.deptRequired ∈ formErrors numParse raw ∧
    ∃ errs, validate numParse now raw = Except.error errs ∧
      FormError.deptRequired ∈ errs := by
  have hmem : FormError.deptRequired ∈ formErrors numParse raw := by
    unfold formErrors
    rw [if_pos h]
    simp
  refine ⟨hmem, formErrors numParse raw, ?_, hmem⟩
  have hne : (formErrors numParse raw).isEmpty = false := by
    cases hfe : formErrors numParse raw with
    | nil => rw [hfe] at hmem; cases hmem
    | cons a l => rfl
  unfold validate
  simp [hne]

/-- Witness for C7: a submission with no department selected but a
valid issue and priority still gets the department error. -/
theorem c7_witness :
    FormError.deptRequired ∈
      formErrors (fun o => if o = some "3".toList then some 3 else none)
        { department := none, role := some "r".toList,
          issue := some "ink".toList, priority := some "3".toList,
          contact := none } :=
  (c7_department_error_collected
    (fun o => if o = some "3".toList then some 3 else none) []
    { department := none, role := some "r".toList,
      issue := some "ink".toList, priority := some "3".toList,
      contact := none } (by decide)).1

/-- C8: the priority error is reported exactly when the raw priority
value does not convert to an integer in `[1, 5]` — and never
otherwise, independently of the other fields. -/
theorem c8_priority_error_iff
    (numParse : Option JStr → Option Int) (raw : RawForm) :
    FormError.priorityInvalid ∈ formErrors numParse raw ↔
      ¬ ∃ p, numParse raw.priority = some p ∧ 1 ≤ p ∧ p ≤ 5 := by
  unfold formErrors
  cases hnp : numParse raw.priority with
  | none =>
    simp only [List.mem_append]
    constructor
    · intro _ hex
      obtain ⟨p, hp, _⟩ := hex
      cases hp
    · intro _
      right
      simp
  | some p =>
    simp only [List.mem_append]
    constructor
    · intro hmem hex
      obtain ⟨q, hq, h1, h5⟩ := hex
      injection hq with hq
      subst hq
      rcases hmem with hmem | hmem
      · rcases hmem with hmem | hmem
        · split at hmem <;> simp at hmem
        · split at hmem <;> simp at hmem
      · split at hmem
        · rename_i hcond
          rcases hcond with hlt | hgt <;> omega
        · simp at hmem
    · intro hnex
      right
      have : p < 1 ∨ p > 5 := by
        by_contra hcon
        push_neg at hcon
        exact hnex ⟨p, rfl, by omega, by omega⟩
      rw [if_pos this]
      simp

/-- C1: every entry the validator accepts is well-formed — its
priority is an integer in `[1, 5]` and its issue is the sanitized raw
issue (trim plus newline-run collapapse), whose length is between 1 and
200 characters. -/
theorem c1_validate_wellformed (numParse : Option JStr → Option Int)
    (now : JStr) (raw : RawForm) (e : Entry)
    (h : validate numParse now raw = Except.ok e) :
    (∃ p : ℤ, e.priority = JsPrim.num (p : ℚ) ∧ 1 ≤ p ∧ p ≤ 5) ∧
    e.issue = some (sanitizeText raw.issue) ∧
    1 ≤ (sanitizeText raw.issue).length ∧
    (sanitizeText raw.issue).length ≤ 200 := by
  unfold validate at h
  by_cases he : (formErrors numParse raw).isEmpty
  case neg =>
    simp only [he] at h
    simp at h
  case pos =>
    have hnil : formErrors numParse raw = [] := List.isEmpty_iff.mp he
    unfold formErrors at hnil
    simp only [List.append_eq_nil] at hnil
    obtain ⟨⟨hdept, hissue⟩, hprio⟩ := hnil
    cases hnp : numParse raw.priority with
    | none => rw [hnp] at hprio; cases hprio
    | some p =>
      rw [hnp] at hprio
      have hprio2 : (if p < 1 ∨ p > 5 then [FormError.priorityInvalid]
          else ([] : List FormError)) = [] := hprio
      have hbound : ¬ (p < 1 ∨ p > 5) := by
        intro hc
        rw [if_pos hc] at hprio2
        cases hprio2
      push_neg at hbound
      have hiss1 : (sanitizeText raw.issue).isEmpty = false := by
        cases hie : (sanitizeText raw.issue).isEmpty
        · rfl
        · rw [hie] at hissue; simp at hissue
      have hiss2 : ¬ (sanitizeText raw.issue).length > 200 := by
        intro hc
        rw [if_neg (by simp [hiss1]), if_pos hc] at hissue
        cases hissue
      simp only [he, hnp] at h
      simp at h
      refine ⟨⟨p, ?_, hbound.1, hbound.2⟩, ?_, ?_, by omega⟩
      · rw [← h]
      · rw [← h]
      · have := List.isEmpty_eq_false_iff_exists_mem.mp hiss1
        obtain ⟨x, hx⟩ := this
        have := List.length_pos.mpr (List.ne_nil_of_mem hx)
        omega

/-- Witness for C1: the spec's scenario entry (department `営業`,
issue `No printer ink`, priority 3) passes validation with an
in-range priority and issue length. -/
theorem c1_witness :
    (∃ p : ℤ,
      (Entry.mk (some "T".toList) (some "営業".toList) (some [])
        (JsPrim.num 3) (some "No printer ink".toList) false).priority =
          JsPrim.num (p : ℚ) ∧ 1 ≤ p ∧ p ≤ 5) ∧
    (Entry.mk (some "T".toList) (some "営業".toList) (some [])
        (JsPrim.num 3) (some "No printer ink".toList) false).issue =
      some (sanitizeText (some "No printer ink".toList)) ∧
    1 ≤ (sanitizeText (some "No printer ink".toList)).length ∧
    (sanitizeText (some "No printer ink".toList)).length ≤ 200 :=
  c1_validate_wellformed
    (fun o => if o = some "3".toList then some 3 else none)
    "T".toList
    { department := some "営業".toList, role := some [],
      issue := some "No printer ink".toList, priority := some "3".toList,
      contact := none }
    (Entry.mk (some "T".toList) (some "営業".toList) (some [])
      (JsPrim.num 3) (some "No printer ink".toList) false)
    (by rfl)

/-! ### Lemmas about the counts accumulator -/
theorem bump_map_fst (m : List (JStr × Nat)) (k : JStr) :
    (bump m k).map Prod.fst = m.map Prod.fst := by
  induction m with
  | nil => rfl
  | cons a rest ih =>
    simp only [bump, List.map_cons] at ih ⊢
    congr 1
    split <;> rfl

theorem hasKey_eq_contains (m : List (JStr × Nat)) (d : JStr) :
    hasKey m d = (m.map Prod.fst).contains d := by
  induction m with
  | nil => rfl
  | cons a rest ih =>
    simp only [hasKey, List.any_cons, List.map_cons, List.contains_cons] at ih ⊢
    rw [ih]
    congr 1
    simp [BEq.comm]

theorem lookupCount_bump_ne (m : List (JStr × Nat)) (k j : JStr)
    (h : j ≠ k) : lookupCount (bump m k) j = lookupCount m j := by
  induction m with
  | nil => rfl
  | cons a rest ih =>
    simp only [bump, List.map_cons, lookupCount]
    by_cases hak : a.1 = k
    · have h1 : (a.1 == k) = true := beq_iff_eq.mpr hak
      have h2 : (a.1 == j) = false := by
        rw [beq_eq_false_iff_ne, hak]
        exact fun hc => h hc.symm
      rw [if_pos h1]
      simp only [lookupCount, h2, Bool.false_eq_true, if_false]
      simpa [bump] using ih
    · have h1 : (a.1 == k) = false := beq_eq_false_iff_ne.mpr hak
      have hhead : (if (a.1 == k) = true then (a.1, a.2 + 1) else a) = a :=
        if_neg (by simp [h1])
      rw [hhead]
      by_cases haj : a.1 = j
      · rw [if_pos (beq_iff_eq.mpr haj), if_pos (beq_iff_eq.mpr haj)]
      · rw [if_neg (by simp [haj]), if_neg (by simp [haj])]
        simpa [bump] using ih

theorem lookupCount_bump_self (m : List (JStr × Nat)) (k : JStr)
    (h : hasKey m k = true) :
    lookupCount (bump m k) k = lookupCount m k + 1 := by
  induction m with
  | nil => cases h
  | cons a rest ih =>
    simp only [bump, List.map_cons, lookupCount]
    by_cases hak : a.1 = k
    · have h1 : (a.1 == k) = true := beq_iff_eq.mpr hak
      rw [if_pos h1]
      simp only [lookupCount, h1, if_pos rfl, if_true]
    · have h1 : (a.1 == k) = false := beq_eq_false_iff_ne.mpr hak
      have hhead : (if (a.1 == k) = true then (a.1, a.2 + 1) else a) = a :=
        if_neg (by simp [h1])
      rw [hhead]
      simp only [lookupCount, h1, Bool.false_eq_true, if_false]
      have h2 : hasKey rest k = true := by
        simp only [hasKey, List.any_cons, h1, Bool.false_or] at h
        exact h
      simpa [bump] using ih h2

theorem sum_bump (m : List (JStr × Nat)) (k : JStr) :
    ((bump m k).map Prod.snd).sum =
      (m.map Prod.snd).sum + m.countP (fun p => p.1 == k) := by
  induction m with
  | nil => rfl
  | cons a rest ih =>
    simp only [bump, List.map_cons, List.sum_cons, List.countP_cons]
    by_cases hak : (a.1 == k) = true
    · rw [if_pos hak]
      simp only [hak, if_true]
      have := ih
      simp only [bump] at this
      omega
    · rw [if_neg hak]
      simp only [Bool.not_eq_true] at hak
      simp only [hak, Bool.false_eq_true, if_false]
      have := ih
      simp only [bump] at this
      omega

theorem countP_beq_one_of_nodup (l : List JStr) (k : JStr)
    (hnd : l.Nodup) (hk : k ∈ l) :
    l.countP (fun x => x == k) = 1 := by
  induction l with
  | nil => cases hk
  | cons a rest ih =>
    rw [List.countP_cons]
    rcases List.mem_cons.mp hk with hka | hkr
    · subst hka
      have hnot : k ∉ rest := (List.nodup_cons.mp hnd).1
      have hz : rest.countP (fun x => x == k) = 0 := by
        rw [List.countP_eq_zero]
        intro x hx
        simp only [beq_iff_eq]
        intro he
        exact hnot (he ▸ hx)
      simp [hz]
    · have hne : a ≠ k := by
        intro he
        exact (List.nodup_cons.mp hnd).1 (he ▸ hkr)
      have h0 : (a == k) = false := beq_eq_false_iff_ne.mpr hne
      rw [ih (List.nodup_cons.mp hnd).2 hkr]
      simp [h0]

theorem countP_key_of_nodup (m : List (JStr × Nat)) (k : JStr)
    (hnd : (m.map Prod.fst).Nodup) (hk : hasKey m k = true) :
    m.countP (fun p => p.1 == k) = 1 := by
  have h1 : m.countP (fun p => p.1 == k) =
      (m.map Prod.fst).countP (fun x => x == k) := by
    rw [List.countP_map]
    rfl
  rw [h1]
  apply countP_beq_one_of_nodup _ _ hnd
  rw [hasKey_eq_contains] at hk
  exact List.mem_of_elem_eq_true hk

/-- The bucket chosen at app.js:177 agrees with `bucketOf` while the
accumulator's keys are exactly `DEPARTMENTS`. -/
theorem stepCount_eq_bucketOf (m : List (JStr × Nat)) (e : Entry)
    (hkeys : m.map Prod.fst = DEPARTMENTS) :
    stepCount m e = bump m (bucketOf e) := by
  unfold stepCount bucketOf
  cases e.department with
  | none => rfl
  | some d =>
    show bump m (if hasKey m d = true then d else OTHER) =
      bump m (if DEPARTMENTS.contains d = true then d else OTHER)
    rw [hasKey_eq_contains, hkeys]

theorem foldl_stepCount_map_fst (data : List Entry)
    (m : List (JStr × Nat)) (hkeys : m.map Prod.fst = DEPARTMENTS) :
    (data.foldl stepCount m).map Prod.fst = DEPARTMENTS := by
  induction data generalizing m with
  | nil => exact hkeys
  | cons e rest ih =>
    simp only [List.foldl_cons]
    apply ih
    rw [stepCount_eq_bucketOf m e hkeys, bump_map_fst]
    exact hkeys

theorem bucketOf_mem (e : Entry) : bucketOf e ∈ DEPARTMENTS := by
  unfold bucketOf
  cases e.department with
  | none => decide
  | some d =>
    show (if DEPARTMENTS.contains d = true then d else OTHER) ∈ DEPARTMENTS
    by_cases hd : DEPARTMENTS.contains d = true
    · rw [if_pos hd]
      exact List.mem_of_elem_eq_true hd
    · rw [if_neg hd]
      decide

theorem foldl_stepCount_lookup (data : List Entry)
    (m : List (JStr × Nat)) (hkeys : m.map Prod.fst = DEPARTMENTS)
    (d : JStr) :
    lookupCount (data.foldl stepCount m) d =
      lookupCount m d + data.countP (fun e => bucketOf e == d) := by
  induction data generalizing m with
  | nil => simp
  | cons e rest ih =>
    simp only [List.foldl_cons, List.countP_cons]
    rw [stepCount_eq_bucketOf m e hkeys]
    have hkeys2 : (bump m (bucketOf e)).map Prod.fst = DEPARTMENTS := by
      rw [bump_map_fst]; exact hkeys
    rw [ih _ hkeys2]
    by_cases hbd : bucketOf e = d
    · have hb : (bucketOf e == d) = true := beq_iff_eq.mpr hbd
      rw [hb, if_pos rfl, ← hbd]
      rw [lookupCount_bump_self]
      · omega
      · rw [hasKey_eq_contains, hkeys]
        exact List.elem_eq_true_of_mem (bucketOf_mem e)
    · have hb : (bucketOf e == d) = false := beq_eq_false_iff_ne.mpr hbd
      rw [hb]
      rw [lookupCount_bump_ne _ _ _ (fun hc => hbd hc.symm)]
      simp

theorem foldl_stepCount_sum (data : List Entry)
    (m : List (JStr × Nat)) (hkeys : m.map Prod.fst = DEPARTMENTS) :
    ((data.foldl stepCount m).map Prod.snd).sum =
      (m.map Prod.snd).sum + data.length := by
  induction data generalizing m with
  | nil => simp
  | cons e rest ih =>
    simp only [List.foldl_cons, List.length_cons]
    rw [stepCount_eq_bucketOf m e hkeys]
    have hkeys2 : (bump m (bucketOf e)).map Prod.fst = DEPARTMENTS := by
      rw [bump_map_fst]; exact hkeys
    rw [ih _ hkeys2, sum_bump]
    rw [countP_key_of_nodup]
    · omega
    · rw [hkeys]; decide
    · rw [hasKey_eq_contains, hkeys]
      exact List.elem_eq_true_of_mem (bucketOf_mem e)

/-- C3: the department counts have exactly the fixed known categories
as keys (each present even when zero), each entry is counted once
under its own department when known and under `その他` otherwise, and
the bucket values sum to the total entry count. -/
theorem c3_department_counts (data : List Entry) :
    (departmentCounts data).map Prod.fst = DEPARTMENTS ∧
    (∀ d, d ∈ DEPARTMENTS →
      lookupCount (departmentCounts data) d =
        data.countP (fun e => bucketOf e == d)) ∧
    ((departmentCounts data).map Prod.snd).sum = data.length := by
  have hkeys : (DEPARTMENTS.map (fun d => (d, (0 : Nat)))).map Prod.fst =
      DEPARTMENTS := by decide
  refine ⟨foldl_stepCount_map_fst data _ hkeys, ?_, ?_⟩
  · intro d hd
    unfold departmentCounts
    rw [foldl_stepCount_lookup data _ hkeys d]
    have hinit : lookupCount (DEPARTMENTS.map (fun d => (d, (0 : Nat)))) d = 0 := by
      fin_cases hd <;> decide
    rw [hinit]
    omega
  · unfold departmentCounts
    rw [foldl_stepCount_sum data _ hkeys]
    have hz : ((DEPARTMENTS.map (fun d => (d, (0 : Nat)))).map Prod.snd).sum = 0 := by
      decide
    rw [hz]
    omega

/-- Witness for C3 (the claim's inner membership hypothesis): for a
one-entry list with an unknown department the entry lands in the
`その他` bucket. -/
theorem c3_witness :
    lookupCount
      (departmentCounts
        [Entry.mk none (some "総務".toList) none (JsPrim.num 1) none false])
      OTHER =
      List.countP (fun e => bucketOf e == OTHER)
        [Entry.mk none (some "総務".toList) none (JsPrim.num 1) none false] :=
  (c3_department_counts
    [Entry.mk none (some "総務".toList) none (JsPrim.num 1) none false]).2.1
    OTHER (by decide)
/-! ### Lemmas about the priority sum -/

theorem foldl_jsAdd_none (strNum : JStr → Option ℚ) (data : List Entry) :
    data.foldl (fun acc e => jsAdd acc (prioNum strNum e.priority)) none =
      none := by
  induction data with
  | nil => rfl
  | cons e rest ih => simpa [jsAdd] using ih

theorem foldl_jsAdd_allSome (strNum : JStr → Option ℚ) (data : List Entry)
    (h : ∀ e ∈ data, (prioNum strNum e.priority).isSome) (acc : ℚ) :
    data.foldl (fun acc e => jsAdd acc (prioNum strNum e.priority))
        (some acc) =
      some (acc +
        (data.map (fun e => (prioNum strNum e.priority).getD 0)).sum) := by
  induction data generalizing acc with
  | nil => simp
  | cons e rest ih =>
    obtain ⟨q, hq⟩ := Option.isSome_iff_exists.mp (h e (List.mem_cons_self e rest))
    simp only [List.foldl_cons, List.map_cons, List.sum_cons]
    rw [show jsAdd (some acc) (prioNum strNum e.priority) = some (acc + q) by
      rw [hq]; rfl]
    rw [ih (fun x hx => h x (List.mem_cons_of_mem e hx)) (acc + q)]
    rw [hq]
    simp only [Option.getD_some]
    ring_nf

theorem foldl_jsAdd_hasNone (strNum : JStr → Option ℚ) (data : List Entry)
    (h : ∃ e ∈ data, prioNum strNum e.priority = none) (acc : ℚ) :
    data.foldl (fun acc e => jsAdd acc (prioNum strNum e.priority))
        (some acc) = none := by
  induction data generalizing acc with
  | nil => obtain ⟨e, he, _⟩ := h; cases he
  | cons e rest ih =>
    obtain ⟨x, hx, hnone⟩ := h
    rcases List.mem_cons.mp hx with hxe | hxr
    · subst hxe
      simp only [List.foldl_cons]
      rw [show jsAdd (some acc) (prioNum strNum x.priority) = none by
        rw [hnone]; rfl]
      exact foldl_jsAdd_none strNum rest
    · simp only [List.foldl_cons]
      cases hq : jsAdd (some acc) (prioNum strNum e.priority) with
      | none => exact foldl_jsAdd_none strNum rest
      | some b => exact ih ⟨x, hxr, hnone⟩ b

/-- C6 counterexample: a single entry whose priority is the string
`abc` (numeric coercion NaN). The claim predicts the displayed average
is `round1 0 = 0` (invalid priority contributing 0); the code displays
`NaN` (the NaN poisons the whole sum). -/
theorem c6_counterexample :
    averageDisplayed (fun _ => none)
        [Entry.mk none none none (JsPrim.str "abc".toList) none false] =
      none ∧
    specAverageDisplayed (fun _ => none)
        [Entry.mk none none none (JsPrim.str "abc".toList) none false] =
      some 0 ∧
    (none : Option ℚ) ≠ some 0 := by
  refine ⟨by decide, ?_, by simp⟩
  unfold specAverageDisplayed
  rw [if_neg (by simp)]
  norm_num [prioNum, JsPrim.truthy, round1]

/-- C6 (amended): the displayed average is `0.0` on empty data; when
every priority's coercion (`0` for falsy values) is a number, it is
the exact sum divided by the count, rounded to one decimal; but when
any entry has a truthy priority whose numeric coercion is NaN, the
display is `NaN`, not a sum treating that entry as 0. -/
theorem c6_average_amended (strNum : JStr → Option ℚ) (data : List Entry) :
    (data = [] → averageDisplayed strNum data = some 0) ∧
    ((∀ e ∈ data, (prioNum strNum e.priority).isSome) →
      averageDisplayed strNum data =
        some (round1
          ((data.map (fun e => (prioNum strNum e.priority).getD 0)).sum /
            data.length))) ∧
    ((∃ e ∈ data, prioNum strNum e.priority = none) → data ≠ [] →
      averageDisplayed strNum data = none) := by
  refine ⟨?_, ?_, ?_⟩
  · intro h
    subst h
    rfl
  · intro h
    cases data with
    | nil =>
      show some 0 = some (round1 ((0 : ℚ) / 0))
      norm_num [round1]
    | cons e rest =>
      unfold averageDisplayed totalPriority
      rw [if_neg (by simp)]
      rw [foldl_jsAdd_allSome strNum (e :: rest) h 0]
      simp only [Option.map_some', zero_add]
  · intro h hne
    unfold averageDisplayed totalPriority
    rw [if_neg (by simpa using hne)]
    rw [foldl_jsAdd_hasNone strNum data h 0]
    rfl

/-- Witness for C6: a single entry with numeric priority 3 displays an
average of 3.0. -/
theorem c6_witness :
    averageDisplayed (fun _ => none)
        [Entry.mk none none none (JsPrim.num 3) none false] =
      some 3 := by
  have h := (c6_average_amended (fun _ => none)
    [Entry.mk none none none (JsPrim.num 3) none false]).2.1 (by decide)
  rw [h]
  norm_num [prioNum, JsPrim.truthy, round1]

/-! ### C9: recent-entry issue preview -/

/-- The preview as the claim states it: the sanitized issue truncated
to 20 characters, with an ellipsis exactly when the sanitized issue is
longer than 20 characters. -/
def specDisplayedIssue (e : Entry) : JStr :=
  (sanitizeText e.issue).take 20 ++
    (if (sanitizeText e.issue).length > 20 then ['…'] else [])

/-- C9 counterexample: an issue of `abc` followed by twenty trailing
spaces. Its raw length (23) exceeds 20, so the code appends the
ellipsis, although the sanitized issue (`abc`) is only 3 characters
long and the claim predicts no ellipsis. -/
theorem c9_counterexample :
    displayedIssue
        (Entry.mk none none none (JsPrim.num 1)
          (some "abc                    ".toList) false) =
      "abc…".toList ∧
    specDisplayedIssue
        (Entry.mk none none none (JsPrim.num 1)
          (some "abc                    ".toList) false) =
      "abc".toList ∧
    "abc…".toList ≠ "abc".toList := by
  refine ⟨by decide, by decide, by decide⟩

/-- C9 (amended): the preview text is the sanitized issue truncated to
20 characters, but the ellipsis is appended exactly when the RAW
issue is present, non-empty and longer than 20 characters — the
truncation test does not look at the sanitized text. -/
theorem c9_preview_amended (e : Entry) :
    displayedIssue e =
      (sanitizeText e.issue).take 20 ++
        (if ellipsisShown e then ['…'] else []) ∧
    (ellipsisShown e = true ↔
      ∃ s, e.issue = some s ∧ s ≠ [] ∧ s.length > 20) := by
  refine ⟨rfl, ?_⟩
  cases hi : e.issue with
  | none => simp [ellipsisShown, hi]
  | some s =>
    simp only [ellipsisShown, hi, Bool.and_eq_true, Bool.not_eq_true',
      List.isEmpty_eq_false, decide_eq_true_eq]
    constructor
    · rintro ⟨h1, h2⟩
      exact ⟨s, rfl, h1, by simpa using h2⟩
    · rintro ⟨t, ht, h1, h2⟩
      injection ht with ht
      subst ht
      exact ⟨h1, by simpa using h2⟩

/-! ### C5: CSV escaping round-trip -/

theorem scanCell_escape (s r : JStr) (hr : r.head? ≠ some '"') :
    scanCell (dupQuotes s ++ '"' :: r) = some (s, r) := by
  induction s with
  | nil =>
    cases r with
    | nil => rfl
    | cons c r' =>
      have hc : ¬ (c = '"') := by
        intro he
        exact hr (by rw [he]; rfl)
      simp [dupQuotes, scanCell, hc]
  | cons c cs ih =>
    by_cases hc : c = '"'
    · subst hc
      simp only [dupQuotes, List.flatMap_cons, if_pos rfl]
      show scanCell ('"' :: '"' :: (dupQuotes cs ++ '"' :: r)) = _
      simp only [scanCell, if_pos rfl]
      rw [ih]
      rfl
    · simp only [dupQuotes, List.flatMap_cons, if_neg hc]
      show scanCell (c :: (dupQuotes cs ++ '"' :: r)) = _
      rw [scanCell.eq_def]
      simp only [if_neg hc]
      rw [ih]
      rfl

theorem parseRow_csvRow (cells : List JStr) (hne : cells ≠ []) :
    parseRow (csvRow cells) = some cells := by
  induction cells with
  | nil => exact absurd rfl hne
  | cons s rest ih =>
    cases rest with
    | nil =>
      show parseRow (joinSep [','] [escapeCell s]) = some [s]
      show parseRow (escapeCell s) = some [s]
      show parseRow ('"' :: (dupQuotes s ++ ['"'])) = some [s]
      rw [parseRow]
      have hs : scanCell (dupQuotes s ++ '"' :: ([] : JStr)) = some (s, []) :=
        scanCell_escape s [] (by simp)
      split
      · rename_i s2 heq
        rw [hs] at heq
        injection heq with heq
        injection heq with h1 h2
        rw [h1]
      · rename_i s2 rest2 heq
        rw [hs] at heq
        injection heq with heq
        injection heq with h1 h2
        cases h2
      · rename_i hne1 hne2
        exact absurd hs (hne1 s)
    | cons t rest2 =>
      have hjoin : csvRow (s :: t :: rest2) =
          '"' :: (dupQuotes s ++ '"' :: ',' :: csvRow (t :: rest2)) := by
        show escapeCell s ++ [','] ++ csvRow (t :: rest2) = _
        show ('"' :: dupQuotes s ++ ['"']) ++ [','] ++ csvRow (t :: rest2) = _
        simp [List.append_assoc]
      rw [hjoin, parseRow]
      have hs : scanCell (dupQuotes s ++ '"' :: (',' :: csvRow (t :: rest2))) =
          some (s, ',' :: csvRow (t :: rest2)) :=
        scanCell_escape s _ (by simp)
      split
      · rename_i s2 heq
        rw [hs] at heq
        injection heq with heq
        injection heq with h1 h2
        cases h2
      · rename_i s2 rest2' heq
        rw [hs] at heq
        injection heq with heq
        injection heq with h1 h2
        injection h2 with h2a h2b
        subst h2b
        subst h1
        rw [ih (by simp)]
        rfl
      · rename_i hne1 hne2
        exact absurd hs (hne2 s _)

/-- C5: the CSV projection joins the quoted header row and one quoted
row per entry (in input order) with single newlines; every cell is
escaped by doubling embedded double quotes and wrapping in double
quotes, with no other change; the escaping corrupts no column
boundary: a full row parses back to exactly its cells. In particular
the cell `He said "hi", ok` is emitted as `"He said ""hi"", ok"`. -/
theorem c5_csv_escaping (numToStr : ℚ → JStr) (data : List Entry) :
    convertToCsv numToStr data =
      joinSep ['\n']
        (csvRow csvHeader ::
          data.map (fun e => csvRow (entryCells numToStr e))) ∧
    (∀ s : JStr, escapeCell s = '"' :: dupQuotes s ++ ['"']) ∧
    (∀ cells : List JStr, cells ≠ [] →
      parseRow (joinSep [','] (cells.map escapeCell)) = some cells) ∧
    escapeCell "He said \"hi\", ok".toList =
      "\"He said \"\"hi\"\", ok\"".toList := by
  refine ⟨rfl, fun s => rfl, ?_, by decide⟩
  intro cells hne
  exact parseRow_csvRow cells hne

/-- Witness for C5: a one-cell row containing a quote and a comma
parses back to exactly that cell. -/
theorem c5_witness :
    parseRow (joinSep [','] (["a\",b".toList].map escapeCell)) =
      some ["a\",b".toList] :=
  (c5_csv_escaping (fun _ => []) []).2.2.1 ["a\",b".toList] (by simp)

/-! ### C4: the recent subset -/

theorem jsOrderedInsert_perm (le : α → α → Bool) (x : α) (l : List α) :
    (jsOrderedInsert le x l).Perm (x :: l) := by
  induction l with
  | nil => exact List.Perm.refl _
  | cons y ys ih =>
    unfold jsOrderedInsert
    by_cases h : le x y
    · rw [if_pos h]
    · rw [if_neg h]
      exact (ih.cons y).trans (List.Perm.swap x y ys)

theorem jsSort_perm (le : α → α → Bool) (l : List α) :
    (jsSort le l).Perm l := by
  induction l with
  | nil => exact List.Perm.refl _
  | cons x xs ih =>
    exact (jsOrderedInsert_perm le x (jsSort le xs)).trans (ih.cons x)

theorem mem_of_mem_jsSort (le : α → α → Bool) (l : List α) (a : α)
    (h : a ∈ jsSort le l) : a ∈ l :=
  (jsSort_perm le l).mem_iff.mp h

theorem pairwise_jsOrderedInsert (le : α → α → Bool)
    (htot : ∀ a b, le a b = true ∨ le b a = true)
    (htrans : ∀ a b c, le a b = true → le b c = true → le a c = true)
    (x : α) (l : List α)
    (hl : List.Pairwise (fun a b => le a b = true) l) :
    List.Pairwise (fun a b => le a b = true) (jsOrderedInsert le x l) := by
  induction l with
  | nil => simp [jsOrderedInsert]
  | cons y ys ih =>
    obtain ⟨hy, hys⟩ := List.pairwise_cons.mp hl
    unfold jsOrderedInsert
    by_cases h : le x y
    · rw [if_pos h]
      refine List.pairwise_cons.mpr ⟨?_, hl⟩
      intro z hz
      rcases List.mem_cons.mp hz with hzy | hzys
      · exact hzy ▸ h
      · exact htrans x y z h (hy z hzys)
    · rw [if_neg h]
      have hyx : le y x = true :=
        (htot x y).resolve_left (by simpa using h)
      refine List.pairwise_cons.mpr ⟨?_, ih hys⟩
      intro z hz
      have hz2 : z ∈ x :: ys :=
        (jsOrderedInsert_perm le x ys).mem_iff.mp hz
      rcases List.mem_cons.mp hz2 with hzx | hzys
      · exact hzx ▸ hyx
      · exact hy z hzys

theorem pairwise_jsSort (le : α → α → Bool)
    (htot : ∀ a b, le a b = true ∨ le b a = true)
    (htrans : ∀ a b c, le a b = true → le b c = true → le a c = true)
    (l : List α) :
    List.Pairwise (fun a b => le a b = true) (jsSort le l) := by
  induction l with
  | nil => simp [jsSort]
  | cons x xs ih => exact pairwise_jsOrderedInsert le htot htrans x _ ih

theorem jsOrderedInsert_congr (le le' : α → α → Bool) (x : α) (l : List α)
    (h : ∀ a ∈ x :: l, ∀ b ∈ x :: l, le a b = le' a b) :
    jsOrderedInsert le x l = jsOrderedInsert le' x l := by
  induction l with
  | nil => rfl
  | cons y ys ih =>
    have hxy : le x y = le' x y :=
      h x (List.mem_cons_self x _) y (List.mem_cons_of_mem x (List.mem_cons_self y ys))
    unfold jsOrderedInsert
    by_cases hc : le x y
    · rw [if_pos hc, if_pos (hxy ▸ hc)]
    · rw [if_neg hc, if_neg (hxy ▸ hc)]
      have hsub : ∀ z, z ∈ x :: ys → z ∈ x :: y :: ys := by
        intro z hz
        rcases List.mem_cons.mp hz with h1 | h1
        · exact h1 ▸ List.mem_cons_self x _
        · exact List.mem_cons_of_mem x (List.mem_cons_of_mem y h1)
      have ih2 := ih (fun a ha b hb => h a (hsub a ha) b (hsub b hb))
      rw [ih2]

theorem jsSort_congr (le le' : α → α → Bool) (l : List α)
    (h : ∀ a ∈ l, ∀ b ∈ l, le a b = le' a b) :
    jsSort le l = jsSort le' l := by
  induction l with
  | nil => rfl
  | cons x xs ih =>
    unfold jsSort
    have ih2 := ih (fun a ha b hb =>
      h a (List.mem_cons_of_mem x ha) b (List.mem_cons_of_mem x hb))
    rw [ih2]
    apply jsOrderedInsert_congr
    intro a ha b hb
    have hmem : ∀ z, z ∈ x :: jsSort le' xs → z ∈ x :: xs := by
      intro z hz
      rcases List.mem_cons.mp hz with h1 | h1
      · exact h1 ▸ List.mem_cons_self x _
      · exact List.mem_cons_of_mem x (mem_of_mem_jsSort le' xs z h1)
    exact h a (hmem a ha) b (hmem b hb)

theorem filter_jsOrderedInsert (p : α → Bool) (le : α → α → Bool) (x : α)
    (l : List α) (hpl : ∀ z ∈ l, p z = true → p x = true → le x z = true) :
    (jsOrderedInsert le x l).filter p =
      if p x then x :: l.filter p else l.filter p := by
  induction l with
  | nil =>
    simp [jsOrderedInsert, List.filter]
    by_cases hx : p x <;> simp [hx, List.filter]
  | cons y ys ih =>
    unfold jsOrderedInsert
    by_cases h : le x y
    · rw [if_pos h]
      by_cases hx : p x <;> simp [List.filter, hx]
    · rw [if_neg h]
      have ih2 := ih (fun z hz => hpl z (List.mem_cons_of_mem y hz))
      by_cases hx : p x
      · have hy : p y = false := by
          cases hyv : p y
          · rfl
          · exact absurd (hpl y (List.mem_cons_self y ys) hyv hx) h
        simp only [List.filter, hy, hx, if_true] at ih2 ⊢
        simp [ih2, hx]
      · have hx2 : p x = false := by simpa using hx
        simp only [List.filter, hx2, Bool.false_eq_true, if_false] at ih2 ⊢
        cases hyv : p y <;> simp [List.filter, hyv, ih2, hx2]

theorem filter_jsSort (p : α → Bool) (le : α → α → Bool)
    (hp : ∀ x z, p x = true → p z = true → le x z = true) (l : List α) :
    (jsSort le l).filter p = l.filter p := by
  induction l with
  | nil => rfl
  | cons x xs ih =>
    unfold jsSort
    rw [filter_jsOrderedInsert p le x _ (fun z _ hz hx => hp x z hx hz)]
    cases hx : p x <;> simp [List.filter, hx, ih]

/-- The timestamp key used once every timestamp parses (default 0 is
irrelevant under that hypothesis). -/
def timeD (parse : Option JStr → Option ℚ) (e : Entry) : ℚ :=
  (parse e.timestamp).getD 0

/-- Total, transitive descending-by-key order agreeing with `jsLe`
on entries whose timestamps parse. -/
def leKey (parse : Option JStr → Option ℚ) (a b : Entry) : Bool :=
  decide (timeD parse b ≤ timeD parse a)

theorem leKey_total (parse : Option JStr → Option ℚ) :
    ∀ a b, leKey parse a b = true ∨ leKey parse b a = true := by
  intro a b
  unfold leKey
  rcases le_total (timeD parse b) (timeD parse a) with h | h
  · exact Or.inl (decide_eq_true h)
  · exact Or.inr (decide_eq_true h)

theorem leKey_trans (parse : Option JStr → Option ℚ) :
    ∀ a b c, leKey parse a b = true → leKey parse b c = true →
      leKey parse a c = true := by
  intro a b c hab hbc
  unfold leKey at hab hbc ⊢
  exact decide_eq_true (le_trans (of_decide_eq_true hbc) (of_decide_eq_true hab))

theorem jsLe_eq_leKey (parse : Option JStr → Option ℚ) (a b : Entry)
    (ha : (parse a.timestamp).isSome = true)
    (hb : (parse b.timestamp).isSome = true) :
    jsLe parse a b = leKey parse a b := by
  obtain ⟨ta, hta⟩ := Option.isSome_iff_exists.mp ha
  obtain ⟨tb, htb⟩ := Option.isSome_iff_exists.mp hb
  unfold jsLe leKey timeD
  rw [hta, htb]
  simp only [Option.getD_some]
  exact decide_eq_decide.mpr sub_nonpos

/-- C4 counterexample: two entries, `2020-01-01` (parses) then `zzz`
(Invalid Date). Under the claim's string-comparison fallback the `zzz`
entry sorts first (descending); the code's comparator yields NaN,
which `SortCompare` maps to `+0`, so the stable sort leaves the
original order unchanged. -/
theorem c4_counterexample :
    recentEntries
        (fun o => if o = some "2020-01-01".toList then some 0 else none)
        [Entry.mk (some "2020-01-01".toList) none none (JsPrim.num 1) none false,
         Entry.mk (some "zzz".toList) none none (JsPrim.num 1) none false] =
      [Entry.mk (some "2020-01-01".toList) none none (JsPrim.num 1) none false,
       Entry.mk (some "zzz".toList) none none (JsPrim.num 1) none false] ∧
    specRecentEntries
        (fun o => if o = some "2020-01-01".toList then some 0 else none)
        [Entry.mk (some "2020-01-01".toList) none none (JsPrim.num 1) none false,
         Entry.mk (some "zzz".toList) none none (JsPrim.num 1) none false] =
      [Entry.mk (some "zzz".toList) none none (JsPrim.num 1) none false,
       Entry.mk (some "2020-01-01".toList) none none (JsPrim.num 1) none false] ∧
    [Entry.mk (some "2020-01-01".toList) none none (JsPrim.num 1) none false,
     Entry.mk (some "zzz".toList) none none (JsPrim.num 1) none false] ≠
      [Entry.mk (some "zzz".toList) none none (JsPrim.num 1) none false,
       Entry.mk (some "2020-01-01".toList) none none (JsPrim.num 1) none false] := by
  refine ⟨by decide, by decide, by decide⟩

/-- C4 (amended): the recent subset is the first 5 of a stable sort of
the entries; when every timestamp parses, it is sorted descending by
parsed timestamp, contains `min 5 n` entries, and every entry left
out has a timestamp no later than every entry kept; entries with
equal parsed timestamps keep their original relative order. Entries
with unparsable timestamps compare equal to everything (the NaN
comparator value is treated as `+0`), so they are placed by the
stable sort, not by any string comparison. -/
theorem c4_recent_amended (parse : Option JStr → Option ℚ)
    (data : List Entry)
    (hp : ∀ e ∈ data, (parse e.timestamp).isSome = true) :
    (recentEntries parse data).length = min 5 data.length ∧
    recentEntries parse data = (jsSort (jsLe parse) data).take 5 ∧
    (jsSort (jsLe parse) data).Perm data ∧
    List.Pairwise
      (fun a b => ∀ ta tb, parse a.timestamp = some ta →
        parse b.timestamp = some tb → tb ≤ ta)
      (recentEntries parse data) ∧
    (∀ a ∈ recentEntries parse data,
      ∀ b ∈ (jsSort (jsLe parse) data).drop 5,
      ∀ ta tb, parse a.timestamp = some ta → parse b.timestamp = some tb →
        tb ≤ ta) ∧
    (∀ t : ℚ,
      (jsSort (jsLe parse) data).filter
          (fun e => decide (parse e.timestamp = some t)) =
        data.filter (fun e => decide (parse e.timestamp = some t))) := by
  have hperm : (jsSort (jsLe parse) data).Perm data := jsSort_perm _ data
  have hcongr : jsSort (jsLe parse) data = jsSort (leKey parse) data :=
    jsSort_congr _ _ data
      (fun a ha b hb => jsLe_eq_leKey parse a b (hp a ha) (hp b hb))
  have hpw : List.Pairwise (fun a b => leKey parse a b = true)
      (jsSort (jsLe parse) data) := by
    rw [hcongr]
    exact pairwise_jsSort _ (leKey_total parse) (leKey_trans parse) data
  have hkey : ∀ a b : Entry, a ∈ data → b ∈ data → leKey parse a b = true →
      ∀ ta tb, parse a.timestamp = some ta → parse b.timestamp = some tb →
        tb ≤ ta := by
    intro a b _ _ hab ta tb hta htb
    have := of_decide_eq_true hab
    unfold timeD at this
    rw [hta, htb] at this
    simpa using this
  refine ⟨?_, rfl, hperm, ?_, ?_, ?_⟩
  · unfold recentEntries
    rw [List.length_take, hperm.length_eq]
  · have hsub : List.Pairwise (fun a b => leKey parse a b = true)
        (recentEntries parse data) :=
      hpw.sublist (List.take_sublist 5 _)
    refine hsub.imp_of_mem ?_
    intro a b ha hb hab
    have ha2 : a ∈ data :=
      hperm.mem_iff.mp (List.mem_of_mem_take ha)
    have hb2 : b ∈ data :=
      hperm.mem_iff.mp (List.mem_of_mem_take hb)
    exact hkey a b ha2 hb2 hab
  · intro a ha b hb ta tb hta htb
    have hsplit := hpw
    rw [← List.take_append_drop 5 (jsSort (jsLe parse) data)] at hsplit
    have hcross := (List.pairwise_append.mp hsplit).2.2
    have hab : leKey parse a b = true := hcross a ha b hb
    have ha2 : a ∈ data := hperm.mem_iff.mp (List.mem_of_mem_take ha)
    have hb2 : b ∈ data := hperm.mem_iff.mp (List.mem_of_mem_drop hb)
    exact hkey a b ha2 hb2 hab ta tb hta htb
  · intro t
    apply filter_jsSort
    intro x z hx hz
    have hx2 : parse x.timestamp = some t := of_decide_eq_true hx
    have hz2 : parse z.timestamp = some t := of_decide_eq_true hz
    unfold jsLe
    rw [hx2, hz2]
    simp

/-- Witness for C4: the spec's 7-entry scenario — with seven entries
whose timestamps all parse, the recent subset has exactly 5 entries. -/
theorem c4_witness :
    (recentEntries (fun o => o.map (fun _ => (0 : ℚ)))
        [Entry.mk (some ['1']) none none (JsPrim.num 1) none false,
         Entry.mk (some ['2']) none none (JsPrim.num 1) none false,
         Entry.mk (some ['3']) none none (JsPrim.num 1) none false,
         Entry.mk (some ['4']) none none (JsPrim.num 1) none false,
         Entry.mk (some ['5']) none none (JsPrim.num 1) none false,
         Entry.mk (some ['6']) none none (JsPrim.num 1) none false,
         Entry.mk (some ['7']) none none (JsPrim.num 1) none false]).length =
      min 5
        ([Entry.mk (some ['1']) none none (JsPrim.num 1) none false,
          Entry.mk (some ['2']) none none (JsPrim.num 1) none false,
          Entry.mk (some ['3']) none none (JsPrim.num 1) none false,
          Entry.mk (some ['4']) none none (JsPrim.num 1) none false,
          Entry.mk (some ['5']) none none (JsPrim.num 1) none false,
          Entry.mk (some ['6']) none none (JsPrim.num 1) none false,
          Entry.mk (some ['7']) none none (JsPrim.num 1) none false] :
            List Entry).length :=
  (c4_recent_amended (fun o => o.map (fun _ => (0 : ℚ))) _ (by decide)).1

/-- Witness for C8: with a converter sending `"3"` to 3, a form whose
priority field is `"3"` gets no priority error. -/
theorem c8_witness :
    FormError.priorityInvalid ∈
        formErrors (fun o => if o = some "3".toList then some 3 else none)
          { department := none, role := none, issue := none,
            priority := some "3".toList, contact := none } ↔
      ¬ ∃ p : ℤ, (fun o => if o = some "3".toList then some 3 else none)
          (RawForm.priority
            { department := none, role := none, issue := none,
              priority := some "3".toList, contact := none }) = some p ∧
        1 ≤ p ∧ p ≤ 5 :=
  c8_priority_error_iff
    (fun o => if o = some "3".toList then some 3 else none)
    { department := none, role := none, issue := none,
      priority := some "3".toList, contact := none }

/-- Witness for C9: a 30-character issue is previewed as its first 20
characters plus an ellipsis. -/
theorem c9_witness :
    displayedIssue
        (Entry.mk none none none (JsPrim.num 1)
          (some "abcdefghijklmnopqrstuvwxyz1234".toList) false) =
      (sanitizeText (some "abcdefghijklmnopqrstuvwxyz1234".toList)).take 20 ++
        (if ellipsisShown
            (Entry.mk none none none (JsPrim.num 1)
              (some "abcdefghijklmnopqrstuvwxyz1234".toList) false)
          then ['…'] else []) :=
  (c9_preview_amended
    (Entry.mk none none none (JsPrim.num 1)
      (some "abcdefghijklmnopqrstuvwxyz1234".toList) false)).1

/-- Witness for C10: the empty export under a fixed number renderer. -/
theorem c10_witness :
    convertToCsv (fun _ => []) [] =
      "\"timestamp\",\"department\",\"role\",\"priority\",\"issue\",\"contact\"".toList :=
  (c10_csv_empty (fun _ => [])).1

end SurveyApp
